import Mathlib

set_option maxRecDepth 4000

/-! Shallow embedding of the SHAKE-PRNG repository (shake.go, prng.go, main.go).
Machine bytes are Nat values below 256 and byte arrays are List Nat.
The 1600-bit Keccak permutation is out of scope for the repository; it is
threaded through every operation as a parameter f acting on the 200-byte
lane array. -/

/-- XOR the bytes of p into the first p.length entries of a, leaving the rest
of a unchanged. This is the byte-level content of xorIn (shake.go), which XORs
whole little-endian 64-bit words of the buffer into the lane array. -/
def xorBytes : List Nat → List Nat → List Nat
  | a, [] => a
  | [], _ => []
  | x :: a, y :: p => (x ^^^ y) :: xorBytes a p

/-- Modelled from the spec: the absorb loop of the sponge (the sha3 state type
of the upstream package is not under src, only its interface and xorIn are).
Fold full rate-sized chunks of the buffered input into the lane array,
permuting once per chunk; the remainder stays buffered. The fuel argument only
bounds the iteration count so that the recursion is structural. -/
def absorbChunks (f : List Nat → List Nat) (r : Nat) :
    Nat → List Nat → List Nat → List Nat × List Nat
  | 0, a, l => (a, l)
  | fuel+1, a, l =>
    if 0 < r ∧ r ≤ l.length then
      absorbChunks f r fuel (f (xorBytes a (l.take r))) (l.drop r)
    else (a, l)

/-- Modelled from the spec: absorb l into the lane array a in full rate-sized
chunks; l.length is always enough fuel since every chunk step consumes at
least one byte. -/
def absorbAux (f : List Nat → List Nat) (r : Nat) (a l : List Nat) : List Nat × List Nat :=
  absorbChunks f r l.length a l

/-- Modelled from the spec: the sponge state of §4.1 — 200-byte lane array
(in little-endian lane serialization), rate, domain-separator byte, the
buffered absorb bytes, the directionality flag, and the squeeze-output bytes
still available without another permutation. -/
structure SpongeState where
  a : List Nat
  rate : Nat
  dsbyte : Nat
  pending : List Nat
  squeezing : Bool
  sqOut : List Nat
deriving DecidableEq

/-- Modelled from the spec: a freshly created sponge state is empty and
absorbing. -/
def initState (rate dsbyte : Nat) : SpongeState :=
  { a := List.replicate 200 0, rate := rate, dsbyte := dsbyte,
    pending := [], squeezing := false, sqOut := [] }

/-- Modelled from the spec: absorb p into the state; fails (none) when called
while squeezing. -/
def spongeWrite (f : List Nat → List Nat) (s : SpongeState) (p : List Nat) :
    Option SpongeState :=
  if s.squeezing then none
  else
    let res := absorbAux f s.rate s.a (s.pending ++ p)
    some { s with a := res.1, pending := res.2 }

/-- Modelled from the spec: the 10*01 finalization — append the domain byte to
the buffered bytes, zero-fill to one rate block, XOR 0x80 into the last block
byte, absorb the block with one permutation, and expose the first rate bytes
for squeezing. -/
def spongeFinalize (f : List Nat → List Nat) (s : SpongeState) : SpongeState :=
  let t := s.pending ++ s.dsbyte :: List.replicate (s.rate - s.pending.length - 1) 0
  let blk := t.set (s.rate - 1) ((t.getD (s.rate - 1) 0) ^^^ 0x80)
  let a1 := f (xorBytes s.a blk)
  { s with a := a1, pending := [], squeezing := true, sqOut := a1.take s.rate }

/-- Modelled from the spec: emit n squeeze-output bytes, permuting to refill
whenever the available block is exhausted. Returns the produced bytes, the
final lane array and the remaining available bytes. -/
def squeezeAux (f : List Nat → List Nat) (rate : Nat) :
    List Nat → List Nat → Nat → List Nat × List Nat × List Nat
  | a, av, 0 => ([], a, av)
  | a, av, n+1 =>
    let p := if av.isEmpty then (f a, (f a).take rate) else (a, av)
    match p with
    | (a1, []) => ([], a1, [])
    | (a1, b :: rest) =>
      let q := squeezeAux f rate a1 rest n
      (b :: q.1, q.2.1, q.2.2)

/-- Modelled from the spec: squeeze n bytes; the first read finalizes the
absorbing phase. -/
def spongeRead (f : List Nat → List Nat) (s : SpongeState) (n : Nat) :
    List Nat × SpongeState :=
  let s1 := if s.squeezing then s else spongeFinalize f s
  let q := squeezeAux f s1.rate s1.a s1.sqOut n
  (q.1, { s1 with a := q.2.1, sqOut := q.2.2 })

/-- Modelled from the spec: Reset zeroes the lane array and returns the state
to the empty absorbing direction. -/
def spongeReset (s : SpongeState) : SpongeState :=
  { s with a := List.replicate 200 0, pending := [], squeezing := false, sqOut := [] }

/-- Byte k (k in [1,8]) of the big-endian 8-byte buffer written by
binary.BigEndian.PutUint64 in leftEncode (shake.go). -/
def leByte (v k : Nat) : Nat := v / 256 ^ (8 - k) % 256

/-- Trim loop of leftEncode (shake.go): starting from i, step while i < 8 and
byte i is zero; the fuel argument bounds the iteration count. -/
def leLoop (v : Nat) : Nat → Nat → Nat
  | i, 0 => i
  | i, fuel+1 => if i < 8 ∧ leByte v i = 0 then leLoop v (i+1) fuel else i

/-- leftEncode of shake.go: one length byte followed by the non-trimmed
big-endian value bytes. -/
def leftEncode (v : Nat) : List Nat :=
  let i := leLoop v 1 8
  (9 - i) :: (List.range (9 - i)).map (fun k => leByte v (i + k))

/-- bytepad of shake.go. -/
def bytepad (input : List Nat) (w : Nat) : List Nat :=
  let buf := leftEncode w ++ input
  let padlen := w - buf.length % w
  buf ++ List.replicate padlen 0

def dsbyteShake : Nat := 0x1f

def dsbyteCShake : Nat := 0x04

def rate128 : Nat := 168

def rate256 : Nat := 136

/-- NewShake128 of shake.go. -/
def NewShake128 : SpongeState := initState rate128 dsbyteShake

/-- NewShake256 of shake.go. -/
def NewShake256 : SpongeState := initState rate256 dsbyteShake

/-- cshakeState of shake.go: a sponge state plus the stored initBlock. -/
structure CShakeState where
  st : SpongeState
  initBlock : List Nat
deriving DecidableEq

/-- newCShake of shake.go: build initBlock from N and S and absorb
bytepad(initBlock, rate) into a fresh state. The construction-time Write is on
a fresh absorbing state and cannot fail; getD covers the impossible branch. -/
def newCShake (f : List Nat → List Nat) (N S : List Nat) (rate dsbyte : Nat) :
    CShakeState :=
  let ib := leftEncode (N.length * 8) ++ N ++ leftEncode (S.length * 8) ++ S
  let s0 := initState rate dsbyte
  { st := (spongeWrite f s0 (bytepad ib rate)).getD s0, initBlock := ib }

def MaxInputLength : Nat := 2 ^ 32

def ReseedInterval : Nat := 2 ^ 48

def RecommendedKMAC128KeyTagSize : Nat := 32

def RecommendedKMAC256KeyTagSize : Nat := 64

def nClear : Nat := 25

/-- Rotation of the low 8 bits of x left by k positions, where k may be
negative; Go bits.RotateLeft8 after the conversion of the count to uint. -/
def rotl8 (x : Nat) (k : Int) : Nat :=
  let s := (k % 8).toNat
  (x <<< s ||| x >>> (8 - s)) % 256

/-- gen10x01Pad of prng.go. -/
def gen10x01Pad (n : Nat) : List Nat :=
  if n = 0 then []
  else
    let buf := dsbyteShake :: List.replicate (n - 1) 0
    buf.set (n - 1) ((buf.getD (n - 1) 0) ^^^ 0x80)

/-- ShakePRNG of prng.go; the nil-able hash interface field becomes Option. -/
structure ShakePRNG where
  c : Option SpongeState
  rate : Nat
  seedLen : Nat
  counter : Nat
  nw : Nat
deriving DecidableEq

/-- getStartFrom of prng.go: XOR of all bytes plus nw+1 (as a byte), rotated
left by nw bits, with the rotation direction inverted when nw AND 0xa55a is
nonzero. -/
def getStartFrom (nw : Nat) (buf : List Nat) : Nat :=
  let sum := (buf.foldl (fun acc x => acc ^^^ x) 0 + (nw + 1)) % 256
  let r : Int := if nw &&& 0xa55a ≠ 0 then -(nw : Int) else (nw : Int)
  rotl8 sum r

/-- createMask of prng.go: the in-place rotate-and-XOR mask construction on
the remix window. -/
def createMask (b : List Nat) : List Nat :=
  let l := b.length
  if l = 0 then b
  else
    let b0 := b.headD 0
    let notAllSame := b.any (fun x => x != b0)
    let tmp := (List.range l).map (fun i =>
      if notAllSame then b.getD i 0 else (b.getD i 0 + (i + 1)) % 256)
    (List.range l).map (fun i =>
      (List.range (l - 1)).foldl (fun sum j0 =>
        let j := j0 + 1
        let idx := (i + j) % l
        let r := j &&& 0x07
        if r = 0 then sum ^^^ ((tmp.getD idx 0) ^^^ 0xff)
        else
          let rr : Int := if j &&& 0x0a ≠ 0 then -(r : Int) else (r : Int)
          sum ^^^ rotl8 (tmp.getD idx 0) rr) (b.getD i 0))

/-- Outcome of writeWithPad: ok carries the updated context and nw; err
carries the context after the in-function Reset and the unchanged nw; fault is
the method call on a nil interface. -/
inductive WwpRes where
  | ok (c : Option SpongeState) (nw : Nat)
  | err (c : Option SpongeState) (nw : Nat)
  | fault
deriving DecidableEq

/-- writeWithPad of prng.go: pre-pad with start zero bytes, absorb, post-pad
with zero bytes to the next rate boundary, increment nw on success; empty p is
a no-op. -/
def writeWithPad (f : List Nat → List Nat) (rate nw : Nat) (c : Option SpongeState)
    (p : List Nat) (start : Nat) : WwpRes :=
  if p.length = 0 then WwpRes.ok c nw
  else
    match c with
    | none => WwpRes.fault
    | some c0 =>
      let buf := List.replicate start 0 ++ p
      match spongeWrite f c0 buf with
      | none => WwpRes.err (some (spongeReset c0)) nw
      | some c1 =>
        let nPad := rate - buf.length % rate
        match spongeWrite f c1 (List.replicate nPad 0) with
        | none => WwpRes.err (some (spongeReset c1)) nw
        | some c2 => WwpRes.ok (some c2) (nw + 1)

/-- NeedReseed of prng.go. -/
def NeedReseed (s : ShakePRNG) : Bool := s.counter > ReseedInterval

/-- Error kinds of the DRBG layer: validation errors, the distinguished
ErrDRBGReseed wrap, and wrapped internal absorb failures. -/
inductive DErr where
  | validation
  | reseedRequired
  | internal
deriving DecidableEq

/-- Result of Generate: ok with the new instance state and the bytes written
into out; an error return with the resulting instance state; or a fault. -/
inductive GRes where
  | ok (s : ShakePRNG) (out : List Nat)
  | err (e : DErr) (s : ShakePRNG)
  | fault
deriving DecidableEq

/-- Result of Reseed and Reset. -/
inductive RRes where
  | ok (s : ShakePRNG)
  | err (e : DErr) (s : ShakePRNG)
  | fault
deriving DecidableEq

/-- Destroy of prng.go: resets the context (a fault when it is already nil)
and zeroes every field. -/
def Destroy (s : ShakePRNG) : Option ShakePRNG :=
  match s.c with
  | none => none
  | some _ => some { c := none, rate := 0, seedLen := 0, counter := 0, nw := 0 }

/-- Zero-block replay loop of Generate (prng.go): absorb one all-zero rate
block per full block consumed, decrementing nq; returns the final fork context
together with the final value of nq. -/
def simLoop (f : List Nat → List Nat) (rate : Nat) :
    SpongeState → Nat → Option (SpongeState × Nat)
  | dup, 0 => some (dup, 0)
  | dup, k+1 =>
    match spongeWrite f dup (List.replicate rate 0) with
    | none => none
    | some d1 => simLoop f rate d1 k

/-- Continuation of Generate (prng.go) after the additional-input absorb: the
instance s1 already carries the post-absorb context cc and counter nw; fork,
squeeze the scratch buffer from the original, replay the permutation
advancement on the fork (finalization pad plus one zero block per full block
read), remix a 25-byte window of the scratch buffer into the fork, and promote
the fork. The record update in Generate keeps rate, seedLen and counter, so
using s1.rate here is the same s.rate the source reads. -/
def generateAfterAbsorb (f : List Nat → List Nat) (s1 : ShakePRNG) (outLen : Nat)
    (cc : SpongeState) : GRes :=
  let buf := (spongeRead f cc ((outLen / s1.rate + 1) * s1.rate - 1)).1
  let outBytes := buf.take outLen
  match spongeWrite f cc (gen10x01Pad s1.rate) with
  | none =>
    match Destroy s1 with
    | none => GRes.fault
    | some sd => GRes.err DErr.internal sd
  | some dup1 =>
    let nq := buf.length / s1.rate
    match simLoop f s1.rate dup1 nq with
    | none =>
      match Destroy s1 with
      | none => GRes.fault
      | some sd => GRes.err DErr.internal sd
    | some dq =>
      let start := getStartFrom s1.nw buf % (s1.rate - nClear - 1)
      let offset := dq.2 * s1.rate + start
      let b := (buf.drop offset).take nClear
      let bm := createMask b
      match writeWithPad f s1.rate s1.nw (some dq.1) bm start with
      | WwpRes.fault => GRes.fault
      | WwpRes.err _ nw2 =>
        match Destroy { s1 with nw := nw2 } with
        | none => GRes.fault
        | some sd => GRes.err DErr.internal sd
      | WwpRes.ok c2 nw2 =>
        GRes.ok { s1 with c := c2, nw := nw2, counter := s1.counter + 1 } outBytes

/-- Generate of prng.go. -/
def Generate (f : List Nat → List Nat) (s : ShakePRNG) (outLen : Nat)
    (additionalIn : List Nat) : GRes :=
  if NeedReseed s then GRes.err DErr.reseedRequired s
  else if outLen > MaxInputLength then GRes.err DErr.validation s
  else if outLen = 0 then GRes.err DErr.validation s
  else if additionalIn.length > MaxInputLength then GRes.err DErr.validation s
  else
    match writeWithPad f s.rate s.nw s.c additionalIn (getStartFrom s.nw additionalIn) with
    | WwpRes.fault => GRes.fault
    | WwpRes.err c1 nw1 =>
      match Destroy { s with c := c1, nw := nw1 } with
      | none => GRes.fault
      | some sd => GRes.err DErr.internal sd
    | WwpRes.ok c1 nw1 =>
      match c1 with
      | none => GRes.fault
      | some cc => generateAfterAbsorb f { s with c := some cc, nw := nw1 } outLen cc

/-- Reseed of prng.go. -/
def Reseed (f : List Nat → List Nat) (s : ShakePRNG) (seed : List Nat) : RRes :=
  let minLen := s.seedLen / 2
  if seed.length < minLen then RRes.err DErr.validation s
  else if seed.length > MaxInputLength then RRes.err DErr.validation s
  else
    match writeWithPad f s.rate s.nw s.c seed (getStartFrom s.nw seed) with
    | WwpRes.fault => RRes.fault
    | WwpRes.err c1 nw1 =>
      match Destroy { s with c := c1, nw := nw1 } with
      | none => RRes.fault
      | some sd => RRes.err DErr.internal sd
    | WwpRes.ok c1 nw1 =>
      RRes.ok { s with c := c1, nw := nw1, counter := 0 }

/-- Reset of prng.go: reset the hash state, zero nw, then Reseed. -/
def Reset (f : List Nat → List Nat) (s : ShakePRNG) (seed : List Nat) : RRes :=
  match s.c with
  | none => RRes.fault
  | some c0 => Reseed f { s with c := some (spongeReset c0), nw := 0 } seed

/-- NewShakeDRBG of prng.go; any error (unsupported strength or a failing
initial Reset) becomes none. -/
def NewShakeDRBG (f : List Nat → List Nat) (bits : Nat) (seed : List Nat) :
    Option ShakePRNG :=
  let mk : Option ShakePRNG :=
    if bits = 128 then
      some { c := some NewShake128, rate := rate128,
             seedLen := RecommendedKMAC128KeyTagSize, counter := 0, nw := 0 }
    else if bits = 256 then
      some { c := some NewShake256, rate := rate256,
             seedLen := RecommendedKMAC256KeyTagSize, counter := 0, nw := 0 }
    else none
  match mk with
  | none => none
  | some d =>
    match Reset f d seed with
    | RRes.ok d1 => some d1
    | _ => none

/-- Drive a sequence of Generate calls with given output lengths and
additional inputs, collecting each successful output; stops at the first
non-ok result. -/
def runGen (f : List Nat → List Nat) :
    Option ShakePRNG → List (Nat × List Nat) → List (List Nat)
  | _, [] => []
  | none, _ => []
  | some s, (lo, ai) :: rest =>
    match Generate f s lo ai with
    | GRes.ok s1 o => o :: runGen f (some s1) rest
    | _ => []

/-- Big-endian value of a byte list, most significant byte first. -/
def beVal (l : List Nat) : Nat := l.foldl (fun acc b => acc * 256 + b) 0

/-- Decoder from the claim: read the length byte, then the big-endian value
bytes; fails when the byte count does not match the length byte. -/
def leDecode (l : List Nat) : Option Nat :=
  match l with
  | [] => none
  | n :: rest => if rest.length = n then some (beVal rest) else none

/-- Stand-in permutation for concrete witnesses: the identity on nonempty
lists, never returning the empty list. -/
def permW : List Nat → List Nat := fun x =>
  match x with
  | [] => [0]
  | l => l

/-- Test of a GRes for success. -/
def GRes.isOk : GRes → Bool
  | GRes.ok _ _ => true
  | _ => false

/-- Output bytes of a successful Generate result. -/
def GRes.outOf : GRes → Option (List Nat)
  | GRes.ok _ o => some o
  | _ => none

/-- Test of an RRes for success. -/
def RRes.isOk : RRes → Bool
  | RRes.ok _ => true
  | _ => false

/-- Value of nw in a successful Reseed result. -/
def RRes.nwOf : RRes → Option Nat
  | RRes.ok s => some s.nw
  | _ => none

/-- Concrete live 256-strength instance used by witnesses. -/
def dW : ShakePRNG :=
  { c := some NewShake256, rate := 136, seedLen := 64, counter := 0, nw := 1 }

/-- Concrete successful Generate call used by witnesses. -/
def genW : GRes := Generate permW dW 1 []

/-- Instance state resulting from the concrete Generate call genW. -/
def s2W : ShakePRNG :=
  match genW with
  | GRes.ok s _ => s
  | _ => dW

/-- Output bytes of the concrete Generate call genW. -/
def oW : List Nat :=
  match genW with
  | GRes.ok _ o => o
  | _ => []

/-- Concrete live instance with nonzero counter and nw. -/
def s0c : ShakePRNG :=
  { c := some NewShake256, rate := 136, seedLen := 64, counter := 5, nw := 3 }

/-- Concrete 32-byte seed. -/
def seed32 : List Nat := List.replicate 32 7

/-- Instance state resulting from the concrete Reseed of s0c with seed32. -/
def rs1 : ShakePRNG :=
  match Reseed id s0c seed32 with
  | RRes.ok s => s
  | _ => s0c

/-- The destroyed instance: nil context, all scalar fields zero. -/
def dDead : ShakePRNG :=
  { c := none, rate := 0, seedLen := 0, counter := 0, nw := 0 }

/-- Concrete live instance whose counter exceeds the reseed interval. -/
def sBig : ShakePRNG :=
  { c := some NewShake256, rate := 136, seedLen := 64,
    counter := ReseedInterval + 1, nw := 0 }

/-- Concrete 60-byte seed matching the demonstration entry point length. -/
def seed60 : List Nat := List.replicate 60 0x41

/-! Helper lemmas about the sponge model. -/

/-- The result of absorbChunks does not depend on the fuel, once the fuel is
at least the input length. -/
theorem absorbChunks_fuel (f : List Nat → List Nat) (r : Nat) :
    ∀ (fuel : Nat) (a l : List Nat), l.length ≤ fuel →
      absorbChunks f r fuel a l = absorbChunks f r l.length a l := by
  intro fuel
  induction fuel using Nat.strong_induction_on with
  | _ fuel ih =>
    intro a l hl
    match fuel with
    | 0 =>
      have hl0 : l = [] := List.length_eq_zero.mp (Nat.le_zero.mp hl)
      subst hl0
      rfl
    | fuel+1 =>
      by_cases hc : 0 < r ∧ r ≤ l.length
      · have hstep : absorbChunks f r (fuel+1) a l =
            absorbChunks f r fuel (f (xorBytes a (l.take r))) (l.drop r) := by
          simp [absorbChunks, hc]
        rw [hstep]
        have hdl : (l.drop r).length = l.length - r := List.length_drop r l
        have h1 : (l.drop r).length ≤ fuel := by omega
        rw [ih fuel (Nat.lt_succ_self fuel) _ _ h1]
        match hle : l.length with
        | 0 => omega
        | m+1 =>
          have hstep2 : absorbChunks f r (m+1) a l =
              absorbChunks f r m (f (xorBytes a (l.take r))) (l.drop r) := by
            simp [absorbChunks, hc]
          rw [hstep2]
          have h2 : (l.drop r).length ≤ m := by omega
          rw [ih m (by omega) _ _ h2]
      · match hle : l.length with
        | 0 => simp [absorbChunks, hc]
        | m+1 => simp [absorbChunks, hc]

/-- Unfolding of absorbAux in the stepping case. -/
theorem absorbAux_step (f : List Nat → List Nat) (r : Nat) (a l : List Nat)
    (h : 0 < r ∧ r ≤ l.length) :
    absorbAux f r a l = absorbAux f r (f (xorBytes a (l.take r))) (l.drop r) := by
  unfold absorbAux
  have hdl : (l.drop r).length = l.length - r := List.length_drop r l
  match hle : l.length with
  | 0 => omega
  | m+1 =>
    have hstep : absorbChunks f r (m+1) a l =
        absorbChunks f r m (f (xorBytes a (l.take r))) (l.drop r) := by
      simp [absorbChunks, h]
    rw [hstep]
    exact absorbChunks_fuel f r m _ _ (by omega)

/-- Unfolding of absorbAux in the stopping case. -/
theorem absorbAux_base (f : List Nat → List Nat) (r : Nat) (a l : List Nat)
    (h : ¬(0 < r ∧ r ≤ l.length)) :
    absorbAux f r a l = (a, l) := by
  unfold absorbAux
  match hle : l.length with
  | 0 => rfl
  | m+1 => simp [absorbChunks, h]

/-- Absorbing l and then m is the same as absorbing l ++ m. -/
theorem absorbAux_append (f : List Nat → List Nat) (r : Nat) :
    ∀ (n : Nat) (l m a : List Nat), l.length ≤ n →
      absorbAux f r (absorbAux f r a l).1 ((absorbAux f r a l).2 ++ m) =
        absorbAux f r a (l ++ m) := by
  intro n
  induction n with
  | zero =>
    intro l m a hl
    have hl0 : l = [] := List.length_eq_zero.mp (Nat.le_zero.mp hl)
    subst hl0
    have hb : absorbAux f r a [] = (a, []) := by
      apply absorbAux_base
      intro hcon
      simp at hcon
      omega
    rw [hb]
  | succ n ih =>
    intro l m a hl
    by_cases hc : 0 < r ∧ r ≤ l.length
    · rw [absorbAux_step f r a l hc]
      have hlen : (l.drop r).length ≤ n := by
        simp only [List.length_drop]
        omega
      rw [ih (l.drop r) m (f (xorBytes a (l.take r))) hlen]
      have hc2 : 0 < r ∧ r ≤ (l ++ m).length := by
        constructor
        · exact hc.1
        · simp only [List.length_append]
          omega
      rw [absorbAux_step f r a (l ++ m) hc2]
      rw [List.take_append_of_le_length hc.2, List.drop_append_of_le_length hc.2]
    · rw [absorbAux_base f r a l hc]

/-- Characterization of a successful spongeWrite. -/
theorem spongeWrite_eq_some (f : List Nat → List Nat) (s : SpongeState) (p : List Nat)
    (h : s.squeezing = false) :
    spongeWrite f s p =
      some { s with a := (absorbAux f s.rate s.a (s.pending ++ p)).1,
                    pending := (absorbAux f s.rate s.a (s.pending ++ p)).2 } := by
  simp [spongeWrite, h]

/-- spongeWrite succeeds only in the absorbing direction, and the result is
still absorbing with the same rate and domain byte. -/
theorem spongeWrite_inv (f : List Nat → List Nat) (s s1 : SpongeState) (p : List Nat)
    (h : spongeWrite f s p = some s1) :
    s.squeezing = false ∧ s1.squeezing = false ∧ s1.rate = s.rate ∧ s1.dsbyte = s.dsbyte := by
  by_cases hs : s.squeezing
  · simp [spongeWrite, hs] at h
  · simp only [Bool.not_eq_true] at hs
    rw [spongeWrite_eq_some f s p hs] at h
    have h1 := Option.some.inj h
    subst h1
    exact ⟨hs, hs, rfl, rfl⟩

/-- Two consecutive absorbs are one absorb of the concatenation. -/
theorem spongeWrite_comp (f : List Nat → List Nat) (s s1 : SpongeState) (p q : List Nat)
    (h : spongeWrite f s p = some s1) :
    spongeWrite f s1 q = spongeWrite f s (p ++ q) := by
  obtain ⟨hs, hs1, hr1, hd1⟩ := spongeWrite_inv f s s1 p h
  rw [spongeWrite_eq_some f s p hs] at h
  have h1 := Option.some.inj h
  have ha : s1.a = (absorbAux f s.rate s.a (s.pending ++ p)).1 := by rw [← h1]
  have hp : s1.pending = (absorbAux f s.rate s.a (s.pending ++ p)).2 := by rw [← h1]
  have hsq : s1.sqOut = s.sqOut := by rw [← h1]
  rw [spongeWrite_eq_some f s1 q hs1, spongeWrite_eq_some f s (p ++ q) hs]
  rw [hr1, hd1, hsq, hs1, hs, ha, hp]
  rw [absorbAux_append f s.rate (s.pending ++ p).length (s.pending ++ p) q s.a le_rfl]
  rw [List.append_assoc]

/-- squeezeAux delivers exactly the requested number of bytes as long as the
permutation never returns an empty lane array and the rate is positive. -/
theorem squeezeAux_length (f : List Nat → List Nat) (rate : Nat)
    (hf : ∀ x, f x ≠ []) (hr : 0 < rate) :
    ∀ (n : Nat) (a av : List Nat), (squeezeAux f rate a av n).1.length = n := by
  intro n
  induction n with
  | zero => intro a av; rfl
  | succ n ih =>
    intro a av
    cases av with
    | nil =>
      have hne : (f a).take rate ≠ [] := by
        cases hfa : f a with
        | nil => exact absurd hfa (hf a)
        | cons x xs =>
          cases rate with
          | zero => omega
          | succ r => simp [List.take]
      cases htk : (f a).take rate with
      | nil => exact absurd htk hne
      | cons b rest =>
        simp only [squeezeAux, List.isEmpty_nil, if_true, htk]
        simp [ih]
    | cons b rest =>
      simp only [squeezeAux, List.isEmpty_cons, if_false]
      simp [ih]

/-- The zero-block replay loop always ends with the block counter at zero. -/
theorem simLoop_snd_eq_zero (f : List Nat → List Nat) (rate : Nat) :
    ∀ (n : Nat) (d d1 : SpongeState) (k : Nat),
      simLoop f rate d n = some (d1, k) → k = 0 := by
  intro n
  induction n with
  | zero =>
    intro d d1 k h
    simp only [simLoop] at h
    exact (Prod.mk.injEq .. ▸ (Option.some.inj h)).2.symm ▸ rfl
  | succ n ih =>
    intro d d1 k h
    simp only [simLoop] at h
    cases hw : spongeWrite f d (List.replicate rate 0) with
    | none => rw [hw] at h; exact absurd h (by simp)
    | some d2 => rw [hw] at h; exact ih d2 d1 k h

/-- writeWithPad with empty data is a no-op. -/
theorem writeWithPad_nil (f : List Nat → List Nat) (rate nw start : Nat)
    (c : Option SpongeState) :
    writeWithPad f rate nw c [] start = WwpRes.ok c nw := by
  simp [writeWithPad]

/-- Characterization of a successful writeWithPad on nonempty data: the
context absorbs the pre-pad, the data and the post-pad in one go, and nw is
incremented. -/
theorem writeWithPad_ok_spec (f : List Nat → List Nat) (rate nw start : Nat)
    (c0 : SpongeState) (p : List Nat) (hp : p ≠ []) (hsq : c0.squeezing = false) :
    writeWithPad f rate nw (some c0) p start =
      WwpRes.ok (spongeWrite f c0 (List.replicate start 0 ++ p ++
        List.replicate (rate - (start + p.length) % rate) 0)) (nw + 1) := by
  have hlen : ¬(p.length = 0) := by simpa using hp
  unfold writeWithPad
  rw [if_neg hlen]
  dsimp only
  simp only [List.length_append, List.length_replicate]
  split
  · next heq =>
    rw [spongeWrite_eq_some f c0 _ hsq] at heq
    simp at heq
  · next c1 heq =>
    split
    · next heq2 =>
      have hc1sq := (spongeWrite_inv f c0 c1 _ heq).2.1
      rw [spongeWrite_eq_some f c1 _ hc1sq] at heq2
      simp at heq2
    · next c2 heq2 =>
      have hcomp := spongeWrite_comp f c0 c1 (List.replicate start 0 ++ p)
        (List.replicate (rate - (start + p.length) % rate) 0) heq
      rw [← hcomp, heq2]

/-- A successful writeWithPad is either the empty no-op or increments nw by
exactly one. -/
theorem writeWithPad_ok_cases (f : List Nat → List Nat) (rate nw start : Nat)
    (c : Option SpongeState) (p : List Nat) (c1 : Option SpongeState) (nw1 : Nat)
    (h : writeWithPad f rate nw c p start = WwpRes.ok c1 nw1) :
    (p = [] ∧ c1 = c ∧ nw1 = nw) ∨ (p ≠ [] ∧ nw1 = nw + 1) := by
  unfold writeWithPad at h
  by_cases hp : p.length = 0
  · rw [if_pos hp] at h
    simp only [WwpRes.ok.injEq] at h
    exact Or.inl ⟨List.length_eq_zero.mp hp, h.1.symm, h.2.symm⟩
  · rw [if_neg hp] at h
    refine Or.inr ⟨fun hh => hp (by simp [hh]), ?_⟩
    cases c with
    | none => simp at h
    | some c0 =>
      dsimp only at h
      split at h
      · simp at h
      · split at h
        · simp at h
        · simp only [WwpRes.ok.injEq] at h
          exact h.2.symm

/-- An erroring writeWithPad leaves nw unchanged. -/
theorem writeWithPad_err_nw (f : List Nat → List Nat) (rate nw start : Nat)
    (c : Option SpongeState) (p : List Nat) (c1 : Option SpongeState) (nw1 : Nat)
    (h : writeWithPad f rate nw c p start = WwpRes.err c1 nw1) : nw1 = nw := by
  unfold writeWithPad at h
  by_cases hp : p.length = 0
  · rw [if_pos hp] at h
    simp at h
  · rw [if_neg hp] at h
    cases c with
    | none => simp at h
    | some c0 =>
      dsimp only at h
      split at h
      · simp only [WwpRes.err.injEq] at h
        exact h.2.symm
      · split at h
        · simp only [WwpRes.err.injEq] at h
          exact h.2.symm
        · simp at h

/-- Padding up to the next rate boundary yields a positive multiple of the
rate. -/
theorem pad_total_mod (rate t : Nat) (hr : 0 < rate) :
    (t + (rate - t % rate)) % rate = 0 ∧ 0 < t + (rate - t % rate) := by
  have hd := Nat.div_add_mod t rate
  have hm : t % rate < rate := Nat.mod_lt _ hr
  constructor
  · have he : t + (rate - t % rate) = rate * (t / rate) + rate := by omega
    rw [he, ← Nat.mul_succ]
    exact Nat.mul_mod_right _ _
  · omega

/-- The scratch buffer length used by Generate is at least the output
length. -/
theorem lo_le_scratch (lo r : Nat) (hr : 0 < r) : lo ≤ (lo / r + 1) * r - 1 := by
  have hd := Nat.div_add_mod lo r
  have hm : lo % r < r := Nat.mod_lt _ hr
  have he : (lo / r + 1) * r = r * (lo / r) + r := by ring
  omega

/-- Inversion of a successful generateAfterAbsorb: the counter is incremented
by one, nw grows by zero or one (the remix absorb may be a no-op only when the
mask window is empty), rate and seedLen are unchanged, and the output is the
outLen-byte prefix of the scratch buffer squeezed from the original
context. -/
theorem generateAfterAbsorb_ok (f : List Nat → List Nat) (s1 s2 : ShakePRNG)
    (lo : Nat) (cc : SpongeState) (o : List Nat)
    (h : generateAfterAbsorb f s1 lo cc = GRes.ok s2 o) :
    s2.counter = s1.counter + 1 ∧ (s2.nw = s1.nw ∨ s2.nw = s1.nw + 1) ∧
    s2.rate = s1.rate ∧ s2.seedLen = s1.seedLen ∧
    o = (spongeRead f cc ((lo / s1.rate + 1) * s1.rate - 1)).1.take lo := by
  unfold generateAfterAbsorb at h
  dsimp only at h
  split at h
  · split at h <;> simp at h
  · split at h
    · split at h <;> simp at h
    · split at h
      · simp at h
      · split at h <;> simp at h
      · rename_i c2 nw2 heq
        simp only [GRes.ok.injEq] at h
        obtain ⟨h1, h2⟩ := h
        subst h1
        refine ⟨rfl, ?_, rfl, rfl, h2.symm⟩
        rcases writeWithPad_ok_cases f s1.rate s1.nw _ _ _ c2 nw2 heq with ⟨-, -, hn⟩ | ⟨-, hn⟩
        · exact Or.inl hn
        · exact Or.inr hn

/-- Inversion of a successful Generate: the validations passed, the
additional-input absorb succeeded on a non-nil context, and the continuation
succeeded from the updated instance. -/
theorem generate_ok_inv (f : List Nat → List Nat) (s s2 : ShakePRNG) (lo : Nat)
    (ai o : List Nat) (h : Generate f s lo ai = GRes.ok s2 o) :
    ∃ cc nw1,
      writeWithPad f s.rate s.nw s.c ai (getStartFrom s.nw ai) = WwpRes.ok (some cc) nw1 ∧
      generateAfterAbsorb f { s with c := some cc, nw := nw1 } lo cc = GRes.ok s2 o ∧
      NeedReseed s = false ∧ lo ≤ MaxInputLength ∧ lo ≠ 0 ∧ ai.length ≤ MaxInputLength := by
  unfold Generate at h
  by_cases hN : NeedReseed s
  · rw [if_pos hN] at h; simp at h
  · rw [if_neg hN] at h
    by_cases h1 : lo > MaxInputLength
    · rw [if_pos h1] at h; simp at h
    · rw [if_neg h1] at h
      by_cases h2 : lo = 0
      · rw [if_pos h2] at h; simp at h
      · rw [if_neg h2] at h
        by_cases h3 : ai.length > MaxInputLength
        · rw [if_pos h3] at h; simp at h
        · rw [if_neg h3] at h
          split at h
          · simp at h
          · split at h <;> simp at h
          · rename_i c1 nw1 heqw
            split at h
            · simp at h
            · rename_i cc
              have hNf : NeedReseed s = false := by
                simp only [Bool.not_eq_true] at hN
                exact hN
              exact ⟨cc, nw1, heqw, h, hNf, by omega, h2, by omega⟩


/-- Out-of-range seed lengths make Reseed return a validation error with the
instance unchanged. -/
theorem reseed_err_of_out_of_range (f : List Nat → List Nat) (s : ShakePRNG)
    (seed : List Nat)
    (h : seed.length < s.seedLen / 2 ∨ MaxInputLength < seed.length) :
    Reseed f s seed = RRes.err DErr.validation s := by
  unfold Reseed
  dsimp only
  rcases h with h | h
  · rw [if_pos h]
  · by_cases h1 : seed.length < s.seedLen / 2
    · rw [if_pos h1]
    · rw [if_neg h1, if_pos (by omega)]

/-- Inversion of a successful Reseed: the length bounds held, the counter was
reset, rate and seedLen are unchanged, and nw was incremented by exactly one
when the seed is nonempty. -/
theorem reseed_ok_inv (f : List Nat → List Nat) (s s1 : ShakePRNG) (seed : List Nat)
    (h : Reseed f s seed = RRes.ok s1) :
    s.seedLen / 2 ≤ seed.length ∧ seed.length ≤ MaxInputLength ∧
    s1.counter = 0 ∧ s1.rate = s.rate ∧ s1.seedLen = s.seedLen ∧
    s.nw ≤ s1.nw ∧ (seed ≠ [] → s1.nw = s.nw + 1) := by
  unfold Reseed at h
  dsimp only at h
  by_cases h1 : seed.length < s.seedLen / 2
  · rw [if_pos h1] at h; simp at h
  · rw [if_neg h1] at h
    by_cases h2 : seed.length > MaxInputLength
    · rw [if_pos h2] at h; simp at h
    · rw [if_neg h2] at h
      split at h
      · simp at h
      · split at h <;> simp at h
      · rename_i c1 nw1 heqw
        simp only [RRes.ok.injEq] at h
        subst h
        refine ⟨by omega, by omega, rfl, rfl, rfl, ?_, ?_⟩
        · show s.nw ≤ nw1
          rcases writeWithPad_ok_cases f s.rate s.nw _ _ _ c1 nw1 heqw with
            ⟨-, -, hn⟩ | ⟨-, hn⟩ <;> omega
        · intro hne
          show nw1 = s.nw + 1
          rcases writeWithPad_ok_cases f s.rate s.nw _ _ _ c1 nw1 heqw with
            ⟨he, -, -⟩ | ⟨-, hn⟩
          · exact absurd he hne
          · exact hn

/-- A successful Reseed on a live absorbing context with in-range nonempty
seed: the seed is absorbed through the pre-padded protocol, nw is incremented
and the counter is reset. -/
theorem reseed_ok_spec (f : List Nat → List Nat) (s : ShakePRNG) (seed : List Nat)
    (c0 : SpongeState) (hmin : s.seedLen / 2 ≤ seed.length)
    (hmax : seed.length ≤ MaxInputLength) (hne : seed ≠ [])
    (hc : s.c = some c0) (hsq : c0.squeezing = false) :
    Reseed f s seed = RRes.ok { s with
      c := spongeWrite f c0 (List.replicate (getStartFrom s.nw seed) 0 ++ seed ++
             List.replicate (s.rate - (getStartFrom s.nw seed + seed.length) % s.rate) 0),
      nw := s.nw + 1, counter := 0 } := by
  unfold Reseed
  dsimp only
  rw [if_neg (by omega), if_neg (by omega), hc]
  rw [writeWithPad_ok_spec f s.rate s.nw (getStartFrom s.nw seed) c0 seed hne hsq]

/-- spongeRead delivers exactly the requested number of bytes when the
permutation never returns an empty lane array and the rate is positive. -/
theorem spongeRead_length (f : List Nat → List Nat) (st : SpongeState) (n : Nat)
    (hf : ∀ x, f x ≠ []) (hr : 0 < st.rate) :
    (spongeRead f st n).1.length = n := by
  unfold spongeRead
  dsimp only
  by_cases hs : st.squeezing
  · rw [if_pos hs]
    exact squeezeAux_length f st.rate hf hr n _ _
  · rw [if_neg hs]
    have hrf : (spongeFinalize f st).rate = st.rate := rfl
    rw [hrf]
    exact squeezeAux_length f st.rate hf hr n _ _

/-- generateAfterAbsorb only ever errors with the internal kind. -/
theorem generateAfterAbsorb_err_kind (f : List Nat → List Nat) (s1 : ShakePRNG)
    (lo : Nat) (cc : SpongeState) (e : DErr) (s2 : ShakePRNG)
    (h : generateAfterAbsorb f s1 lo cc = GRes.err e s2) : e = DErr.internal := by
  unfold generateAfterAbsorb at h
  dsimp only at h
  iterate 8 (all_goals try split at h)
  all_goals simp_all

/-! Claim theorems. -/

/-- C5: Generate refuses with the distinguished reseed-required error exactly
when counter exceeds 2^48; in that case it returns the very instance it was
given (no output is produced, the context is untouched and the instance stays
Active), and NeedReseed is the pure query returning true exactly when counter
exceeds 2^48. -/
theorem c5_reseed_gate (f : List Nat → List Nat) (s : ShakePRNG) (lo : Nat)
    (ai : List Nat) :
    (ReseedInterval < s.counter → Generate f s lo ai = GRes.err DErr.reseedRequired s) ∧
    (∀ s2, s.counter ≤ ReseedInterval → Generate f s lo ai ≠ GRes.err DErr.reseedRequired s2) ∧
    (NeedReseed s = true ↔ ReseedInterval < s.counter) := by
  refine ⟨?_, ?_, ?_⟩
  · intro h
    have hN : NeedReseed s = true := by simp [NeedReseed]; omega
    simp [Generate, hN]
  · intro s2 h hEq
    have hN : NeedReseed s = false := by simp [NeedReseed]; omega
    unfold Generate at hEq
    rw [hN] at hEq
    simp only [Bool.false_eq_true, if_false] at hEq
    iterate 10 (all_goals try split at hEq)
    all_goals
      first
      | simp at hEq
      | exact absurd (generateAfterAbsorb_err_kind _ _ _ _ _ _ hEq) (by simp)
  · simp [NeedReseed, gt_iff_lt]

/-- Witness for c5_reseed_gate: a concrete instance past the interval is
refused with the distinguished error and NeedReseed answers true, while a
fresh concrete instance is never refused that way. -/
theorem c5_reseed_gate_witness :
    Generate id sBig 1 [] = GRes.err DErr.reseedRequired sBig ∧
    NeedReseed sBig = true ∧
    Generate id dW 1 [] ≠ GRes.err DErr.reseedRequired dW :=
  ⟨(c5_reseed_gate id sBig 1 []).1 (by decide),
   (c5_reseed_gate id sBig 1 []).2.2.mpr (by decide),
   (c5_reseed_gate id dW 1 []).2.1 dW (by decide)⟩

/-- C6: the pre-padded absorb writeWithPad is a no-op on empty data; on
nonempty data it absorbs exactly the offset zero bytes, the data, and zero
bytes up to the next rate boundary (a positive multiple of the rate, hence at
least one permutation), and it increments nw by exactly one on success only
(errors leave nw unchanged). -/
theorem c6_writeWithPad (f : List Nat → List Nat) (rate nw start : Nat)
    (cOpt : Option SpongeState) (c0 : SpongeState) (p : List Nat)
    (hp : p ≠ []) (hsq : c0.squeezing = false) (hr : 0 < rate) :
    writeWithPad f rate nw cOpt [] start = WwpRes.ok cOpt nw ∧
    writeWithPad f rate nw (some c0) p start =
      WwpRes.ok (spongeWrite f c0 (List.replicate start 0 ++ p ++
        List.replicate (rate - (start + p.length) % rate) 0)) (nw + 1) ∧
    (start + p.length + (rate - (start + p.length) % rate)) % rate = 0 ∧
    0 < start + p.length + (rate - (start + p.length) % rate) ∧
    (∀ c1 nw1, writeWithPad f rate nw cOpt p start = WwpRes.ok c1 nw1 → nw1 = nw + 1) ∧
    (∀ c1 nw1, writeWithPad f rate nw cOpt p start = WwpRes.err c1 nw1 → nw1 = nw) := by
  refine ⟨writeWithPad_nil f rate nw start cOpt,
    writeWithPad_ok_spec f rate nw start c0 p hp hsq,
    (pad_total_mod rate (start + p.length) hr).1,
    (pad_total_mod rate (start + p.length) hr).2, ?_, ?_⟩
  · intro c1 nw1 h
    rcases writeWithPad_ok_cases f rate nw start cOpt p c1 nw1 h with ⟨he, -, -⟩ | ⟨-, hn⟩
    · exact absurd he hp
    · exact hn
  · intro c1 nw1 h
    exact writeWithPad_err_nw f rate nw start cOpt p c1 nw1 h

/-- Witness for c6_writeWithPad at a concrete context, offset and data. -/
theorem c6_writeWithPad_witness :
    writeWithPad id 136 0 (some NewShake256) [] 5 = WwpRes.ok (some NewShake256) 0 ∧
    writeWithPad id 136 0 (some NewShake256) [1, 2, 3] 5 =
      WwpRes.ok (spongeWrite id NewShake256 (List.replicate 5 0 ++ [1, 2, 3] ++
        List.replicate (136 - (5 + 3) % 136) 0)) 1 ∧
    (5 + 3 + (136 - (5 + 3) % 136)) % 136 = 0 ∧
    0 < 5 + 3 + (136 - (5 + 3) % 136) ∧
    (∀ c1 nw1, writeWithPad id 136 0 (some NewShake256) [1, 2, 3] 5 = WwpRes.ok c1 nw1 →
      nw1 = 0 + 1) ∧
    (∀ c1 nw1, writeWithPad id 136 0 (some NewShake256) [1, 2, 3] 5 = WwpRes.err c1 nw1 →
      nw1 = 0) :=
  c6_writeWithPad id 136 0 5 (some NewShake256) NewShake256 [1, 2, 3]
    (by decide) rfl (by decide)

/-- C8: DRBG output is deterministic — two instances created with the same
strength and seed and driven by the same sequence of Generate calls (same
output lengths, same additional inputs) produce the same output sequences. -/
theorem c8_determinism (f : List Nat → List Nat) (bits1 bits2 : Nat)
    (seed1 seed2 : List Nat) (calls : List (Nat × List Nat))
    (hb : bits1 = bits2) (hs : seed1 = seed2) :
    runGen f (NewShakeDRBG f bits1 seed1) calls =
      runGen f (NewShakeDRBG f bits2 seed2) calls := by
  subst hb
  subst hs
  rfl

/-- Witness for c8_determinism on concrete strength, seed and call list. -/
theorem c8_determinism_witness :
    runGen id (NewShakeDRBG id 256 seed60) [(5, [1, 2, 3])] =
      runGen id (NewShakeDRBG id 256 seed60) [(5, [1, 2, 3])] :=
  c8_determinism id 256 256 seed60 seed60 [(5, [1, 2, 3])] rfl rfl

/-- C10: after the zero-block replay loop the remaining-block counter is zero,
so the 25-byte remix window starts at offset start with start at most
rate - 27, lies entirely within the first rate bytes, and the window slice
stays within the scratch buffer for every valid output length. -/
theorem c10_remix_window (f : List Nat → List Nat) (rate lo nw n k : Nat)
    (buf : List Nat) (d d1 : SpongeState)
    (hr : rate = 136 ∨ rate = 168) (hlo : 1 ≤ lo)
    (hbuf : buf.length = (lo / rate + 1) * rate - 1)
    (hsim : simLoop f rate d n = some (d1, k)) :
    k = 0 ∧
    getStartFrom nw buf % (rate - nClear - 1) ≤ rate - 27 ∧
    getStartFrom nw buf % (rate - nClear - 1) + nClear < rate ∧
    k * rate + getStartFrom nw buf % (rate - nClear - 1) + nClear ≤ buf.length := by
  have hk := simLoop_snd_eq_zero f rate n d d1 k hsim
  have hpos : 0 < rate - nClear - 1 := by
    rcases hr with h | h <;> subst h <;> decide
  have hm : getStartFrom nw buf % (rate - nClear - 1) < rate - nClear - 1 :=
    Nat.mod_lt _ hpos
  subst hk
  rcases hr with h | h <;> subst h <;>
    refine ⟨rfl, ?_, ?_, ?_⟩ <;> simp only [nClear] at hm hbuf ⊢ <;> omega

/-- Witness for c10_remix_window at rate 136, output length 150 and a concrete
scratch buffer. -/
theorem c10_remix_window_witness :
    (0 : Nat) = 0 ∧
    getStartFrom 1 (List.replicate 271 0) % (136 - nClear - 1) ≤ 136 - 27 ∧
    getStartFrom 1 (List.replicate 271 0) % (136 - nClear - 1) + nClear < 136 ∧
    0 * 136 + getStartFrom 1 (List.replicate 271 0) % (136 - nClear - 1) + nClear ≤
      (List.replicate 271 (0 : Nat)).length :=
  c10_remix_window id 136 150 1 0 0 (List.replicate 271 0) NewShake256 NewShake256
    (Or.inl rfl) (by decide) (by decide) rfl

/-- C7: Reseed succeeds only for seedLen/2 at most len(seed) at most 2^32; an
out-of-range length yields a validation error returning the instance
unchanged (counter, nw and the context untouched, still Active); an in-range
nonempty seed on a live absorbing context succeeds, absorbing the seed through
the pre-padded protocol and resetting counter to 0. -/
theorem c7_reseed_bounds (f : List Nat → List Nat) (s : ShakePRNG) (seed : List Nat)
    (c0 : SpongeState) (hc : s.c = some c0) (hsq : c0.squeezing = false) :
    (∀ s1, Reseed f s seed = RRes.ok s1 →
      s.seedLen / 2 ≤ seed.length ∧ seed.length ≤ MaxInputLength ∧ s1.counter = 0) ∧
    (seed.length < s.seedLen / 2 ∨ MaxInputLength < seed.length →
      Reseed f s seed = RRes.err DErr.validation s) ∧
    (s.seedLen / 2 ≤ seed.length → seed.length ≤ MaxInputLength → seed ≠ [] →
      Reseed f s seed = RRes.ok { s with
        c := spongeWrite f c0 (List.replicate (getStartFrom s.nw seed) 0 ++ seed ++
               List.replicate (s.rate - (getStartFrom s.nw seed + seed.length) % s.rate) 0),
        nw := s.nw + 1, counter := 0 }) := by
  refine ⟨?_, ?_, ?_⟩
  · intro s1 h
    obtain ⟨a, b, c, -, -, -, -⟩ := reseed_ok_inv f s s1 seed h
    exact ⟨a, b, c⟩
  · exact reseed_err_of_out_of_range f s seed
  · intro h1 h2 h3
    exact reseed_ok_spec f s seed c0 h1 h2 h3 hc hsq

/-- Witness for c7_reseed_bounds at strength 256 (seedLen 64): a 31-byte seed
is rejected with a validation error and no state change, and a 32-byte seed is
accepted with counter reset to 0. -/
theorem c7_reseed_bounds_witness :
    Reseed id dW (List.replicate 31 1) = RRes.err DErr.validation dW ∧
    Reseed id dW (List.replicate 32 1) = RRes.ok { dW with
      c := spongeWrite id NewShake256
        (List.replicate (getStartFrom dW.nw (List.replicate 32 1)) 0 ++
          List.replicate 32 1 ++
          List.replicate
            (dW.rate - (getStartFrom dW.nw (List.replicate 32 1) +
              (List.replicate 32 (1 : Nat)).length) % dW.rate) 0),
      nw := dW.nw + 1, counter := 0 } :=
  ⟨(c7_reseed_bounds id dW (List.replicate 31 1) NewShake256 rfl rfl).2.1
      (by decide),
   (c7_reseed_bounds id dW (List.replicate 32 1) NewShake256 rfl rfl).2.2
      (by decide) (by decide) (by decide)⟩

/-- C3 counterexample: Destroy is not idempotent. Destroying a live concrete
instance clears it, but a second Destroy on the destroyed instance is a nil
context method call (a fault), not a success. -/
theorem c3_counterexample : Destroy dW = some dDead ∧ Destroy dDead = none := by
  decide

/-- C3 amended: Destroy on a live instance clears the context reference and
zeroes all scalar fields; but a second Destroy on the destroyed instance
faults on the nil context, Generate calls on the destroyed instance that pass
validation fault rather than returning an error, and Reseed on the destroyed
instance faults for every nonempty seed while an empty seed even returns
success (the destroyed seedLen is 0, so validation passes vacuously and the
absorb is a no-op) — in no case the deterministic error failure the original
claim requires. -/
theorem c3_destroy_amended (f : List Nat → List Nat) (s : ShakePRNG) (c0 : SpongeState)
    (lo : Nat) (ai seed : List Nat)
    (hs : s.c = some c0) (hlo1 : 0 < lo) (hlo2 : lo ≤ MaxInputLength)
    (hai : ai.length ≤ MaxInputLength) (hseed : seed ≠ [])
    (hsl : seed.length ≤ MaxInputLength) :
    Destroy s = some dDead ∧
    dDead.c = none ∧ dDead.rate = 0 ∧ dDead.seedLen = 0 ∧ dDead.counter = 0 ∧
    dDead.nw = 0 ∧
    Destroy dDead = none ∧
    Generate f dDead lo ai = GRes.fault ∧
    Reseed f dDead seed = RRes.fault ∧
    Reseed f dDead [] = RRes.ok dDead := by
  refine ⟨?_, rfl, rfl, rfl, rfl, rfl, rfl, ?_, ?_, ?_⟩
  · unfold Destroy
    rw [hs]
    rfl
  · unfold Generate
    rw [if_neg (show ¬(NeedReseed dDead = true) by decide)]
    rw [if_neg (show ¬(lo > MaxInputLength) by omega)]
    rw [if_neg (show ¬(lo = 0) by omega)]
    rw [if_neg (show ¬(ai.length > MaxInputLength) by omega)]
    cases ai with
    | nil => rfl
    | cons x xs =>
      have hw : writeWithPad f dDead.rate dDead.nw dDead.c (x :: xs)
          (getStartFrom dDead.nw (x :: xs)) = WwpRes.fault := by
        unfold writeWithPad
        rw [if_neg (by simp)]
        rfl
      rw [hw]
  · unfold Reseed
    dsimp only
    rw [if_neg (show ¬(seed.length < dDead.seedLen / 2) by simp [dDead])]
    rw [if_neg (show ¬(seed.length > MaxInputLength) by omega)]
    obtain ⟨x, xs, rfl⟩ := List.exists_cons_of_ne_nil hseed
    have hw : writeWithPad f dDead.rate dDead.nw dDead.c (x :: xs)
        (getStartFrom dDead.nw (x :: xs)) = WwpRes.fault := by
      unfold writeWithPad
      rw [if_neg (by simp)]
      rfl
    rw [hw]
  · unfold Reseed
    dsimp only
    rw [if_neg (show ¬(([] : List Nat).length < dDead.seedLen / 2) by simp [dDead])]
    rw [if_neg (show ¬(([] : List Nat).length > MaxInputLength) by simp [MaxInputLength])]
    rw [writeWithPad_nil f dDead.rate dDead.nw (getStartFrom dDead.nw []) dDead.c]
    rfl

/-- Witness for c3_destroy_amended at a concrete live instance and concrete
calls on the destroyed instance. -/
theorem c3_destroy_amended_witness :
    Destroy dW = some dDead ∧
    dDead.c = none ∧ dDead.rate = 0 ∧ dDead.seedLen = 0 ∧ dDead.counter = 0 ∧
    dDead.nw = 0 ∧
    Destroy dDead = none ∧
    Generate id dDead 5 [] = GRes.fault ∧
    Reseed id dDead seed32 = RRes.fault ∧
    Reseed id dDead [] = RRes.ok dDead :=
  c3_destroy_amended id dW NewShake256 5 [] seed32 rfl (by decide) (by decide)
    (by decide) (by decide) (by decide)

/-- C4 counterexample: a successful Reseed does not leave nw untouched — on a
concrete live instance with nw = 3 it succeeds and nw reads back 4 (the seed
absorption itself increments the absorb counter). -/
theorem c4_counterexample :
    Reseed id s0c seed32 = RRes.ok rs1 ∧ s0c.nw = 3 ∧ rs1.nw = 4 ∧
    rs1.nw ≠ s0c.nw ∧ rs1.counter = 0 := by
  refine ⟨rfl, rfl, by decide, by decide, by decide⟩

/-- C4 amended: Generate and Reseed never decrease nw on a live instance (only
Reset and Destroy zero it); a successful Reseed resets counter to 0 and
increments nw by exactly one when the seed is nonempty. -/
theorem c4_nw_amended (f : List Nat → List Nat) (s s1 s2 : ShakePRNG)
    (seed ai o : List Nat) (lo : Nat) :
    (Reseed f s seed = RRes.ok s1 →
      s1.counter = 0 ∧ s.nw ≤ s1.nw ∧ (seed ≠ [] → s1.nw = s.nw + 1)) ∧
    (Generate f s lo ai = GRes.ok s2 o → s.nw ≤ s2.nw) := by
  constructor
  · intro h
    obtain ⟨-, -, hcnt, -, -, hle, hplus⟩ := reseed_ok_inv f s s1 seed h
    exact ⟨hcnt, hle, hplus⟩
  · intro h
    obtain ⟨cc, nw1, hw, hctd, -, -, -, -⟩ := generate_ok_inv f s s2 lo ai o h
    obtain ⟨-, hnw, -, -, -⟩ := generateAfterAbsorb_ok f _ s2 lo cc o hctd
    have hb : ({ s with c := some cc, nw := nw1 } : ShakePRNG).nw = nw1 := rfl
    rcases writeWithPad_ok_cases f s.rate s.nw _ _ _ _ nw1 hw with ⟨-, -, hn⟩ | ⟨-, hn⟩ <;>
      rcases hnw with h2 | h2 <;> omega

/-- Witness for c4_nw_amended: the concrete Reseed resets counter and bumps nw
by one, and the concrete Generate does not decrease nw. -/
theorem c4_nw_amended_witness :
    (rs1.counter = 0 ∧ s0c.nw ≤ rs1.nw ∧ rs1.nw = s0c.nw + 1) ∧ dW.nw ≤ s2W.nw := by
  constructor
  · have h := (c4_nw_amended id s0c rs1 rs1 seed32 [] [] 0).1 rfl
    exact ⟨h.1, h.2.1, h.2.2 (by decide)⟩
  · exact (c4_nw_amended permW dW rs1 s2W [] [] oW 1).2 rfl

/-- C1 counterexample: a validated, successful concrete Generate call with
output length 1 at rate 136 squeezes a scratch buffer of
(floor(1/136)+1)*136 - 1 = 135 bytes from the pre-fork context, not the
(ceil(1/136)+1)*136 - 1 = 271 bytes the claim formula gives. -/
theorem c1_counterexample :
    GRes.isOk (Generate id dW 1 []) = true ∧
    GRes.outOf (Generate id dW 1 []) =
      some ((spongeRead id NewShake256 ((1 / 136 + 1) * 136 - 1)).1.take 1) ∧
    (spongeRead id NewShake256 ((1 / 136 + 1) * 136 - 1)).1.length = 135 ∧
    ((1 / 136 + 1) * 136 - 1 : Nat) = 135 ∧
    ¬(((1 + 136 - 1) / 136 + 1) * 136 - 1 : Nat) = 135 := by
  refine ⟨by decide, by decide, by decide, by decide, by decide⟩

/-- C1 amended: in every successful Generate call the scratch buffer squeezed
from the original post-absorb context is exactly (floor(lo/rate)+1)*rate - 1
bytes long (which equals the ceiling form only when rate divides lo), and the
output is its lo-byte prefix. -/
theorem c1_scratch_amended (f : List Nat → List Nat) (s s2 : ShakePRNG) (lo : Nat)
    (ai o : List Nat) (cc : SpongeState) (nw1 : Nat)
    (hf : ∀ x, f x ≠ []) (hr : 0 < s.rate) (hcr : cc.rate = s.rate)
    (hw : writeWithPad f s.rate s.nw s.c ai (getStartFrom s.nw ai) =
      WwpRes.ok (some cc) nw1)
    (hok : Generate f s lo ai = GRes.ok s2 o) :
    o = (spongeRead f cc ((lo / s.rate + 1) * s.rate - 1)).1.take lo ∧
    (spongeRead f cc ((lo / s.rate + 1) * s.rate - 1)).1.length =
      (lo / s.rate + 1) * s.rate - 1 ∧
    o.length = lo := by
  obtain ⟨cc2, nw2, hw2, hctd, -, -, -, -⟩ := generate_ok_inv f s s2 lo ai o hok
  rw [hw] at hw2
  simp only [WwpRes.ok.injEq, Option.some.injEq] at hw2
  obtain ⟨hcc, hnw⟩ := hw2
  subst hcc
  subst hnw
  obtain ⟨-, -, -, -, ho⟩ := generateAfterAbsorb_ok f _ s2 lo cc o hctd
  have hrr : ({ s with c := some cc, nw := nw1 } : ShakePRNG).rate = s.rate := rfl
  rw [hrr] at ho
  have hlen : (spongeRead f cc ((lo / s.rate + 1) * s.rate - 1)).1.length =
      (lo / s.rate + 1) * s.rate - 1 :=
    spongeRead_length f cc _ hf (by omega)
  refine ⟨ho, hlen, ?_⟩
  rw [ho, List.length_take, hlen]
  have := lo_le_scratch lo s.rate hr
  omega

/-- Witness for c1_scratch_amended at a concrete Generate call with empty
additional input, so the post-absorb context is the instance context
itself. -/
theorem c1_scratch_amended_witness :
    oW = (spongeRead permW NewShake256 ((1 / 136 + 1) * 136 - 1)).1.take 1 ∧
    (spongeRead permW NewShake256 ((1 / 136 + 1) * 136 - 1)).1.length =
      (1 / 136 + 1) * 136 - 1 ∧
    oW.length = 1 :=
  c1_scratch_amended permW dW s2W 1 [] oW NewShake256 1
    (fun x => by cases x <;> simp [permW]) (by decide) rfl rfl rfl

/-- C2: the claim fails on the code — newCShake has no empty-N,S fallback to
plain SHAKE, so a cSHAKE context built with empty N and S still absorbs
bytepad(leftEncode(0) ++ leftEncode(0), rate) at construction and finalizes
with the dsbyte it was given; its squeezed output differs from plain SHAKE of
the same rate (shown under the identity stand-in permutation, with the cSHAKE
domain byte 0x04 and even with 0x1f), for both rates. -/
theorem c2_cshake_divergence :
    (newCShake id [] [] rate256 dsbyteCShake).initBlock = [1, 0, 1, 0] ∧
    (spongeRead id (newCShake id [] [] rate256 dsbyteCShake).st 1).1 = [0x05] ∧
    (spongeRead id NewShake256 1).1 = [0x1f] ∧
    (spongeRead id (newCShake id [] [] rate256 dsbyteCShake).st 1).1 ≠
      (spongeRead id NewShake256 1).1 ∧
    (spongeRead id (newCShake id [] [] rate256 dsbyteShake).st 1).1 ≠
      (spongeRead id NewShake256 1).1 ∧
    (spongeRead id (newCShake id [] [] rate128 dsbyteCShake).st 1).1 ≠
      (spongeRead id NewShake128 1).1 := by
  refine ⟨by decide, by decide, by decide, by decide, by decide, by decide⟩

/-- Byte extraction commutes with truncation to a higher power: byte j of v
equals byte j of v mod 256^n whenever j < n. -/
theorem byte_mod_pow (v j n : Nat) (h : j < n) :
    v / 256 ^ j % 256 = v % 256 ^ n / 256 ^ j % 256 := by
  have h1 := Nat.mod_mul_right_div_self v (256 ^ j) 256
  have h2 := Nat.mod_mul_right_div_self (v % 256 ^ n) (256 ^ j) 256
  have h3 : 256 ^ j * 256 = 256 ^ (j + 1) := (pow_succ 256 j).symm
  have h4 : v % 256 ^ n % 256 ^ (j + 1) = v % 256 ^ (j + 1) :=
    Nat.mod_mod_of_dvd v (pow_dvd_pow 256 (by omega))
  rw [← h1, ← h2, h3, h4]

/-- Folding the big-endian digits of v (most significant first) over the
accumulator recovers v. -/
theorem beVal_fold (n : Nat) :
    ∀ (acc v : Nat), v < 256 ^ n →
      List.foldl (fun acc b => acc * 256 + b) acc
        ((List.range n).map (fun k => v / 256 ^ (n - 1 - k) % 256)) =
      acc * 256 ^ n + v := by
  induction n with
  | zero =>
    intro acc v hv
    simp at hv
    simp [hv]
  | succ n ih =>
    intro acc v hv
    rw [List.range_succ_eq_map]
    rw [List.map_cons, List.map_map]
    simp only [List.foldl_cons]
    have hq2 : v / 256 ^ n < 256 := by
      apply Nat.div_lt_of_lt_mul
      rw [← pow_succ]
      exact hv
    have hd : v / 256 ^ (n + 1 - 1 - 0) % 256 = v / 256 ^ n := by
      have he : n + 1 - 1 - 0 = n := by omega
      rw [he, Nat.mod_eq_of_lt hq2]
    rw [hd]
    have htail : (List.range n).map ((fun k => v / 256 ^ (n + 1 - 1 - k) % 256) ∘ Nat.succ) =
        (List.range n).map (fun k => (v % 256 ^ n) / 256 ^ (n - 1 - k) % 256) := by
      apply List.map_congr_left
      intro k hk
      have hkn : k < n := List.mem_range.mp hk
      have he : n + 1 - 1 - Nat.succ k = n - 1 - k := by omega
      simp only [Function.comp_apply, he]
      exact byte_mod_pow v (n - 1 - k) n (by omega)
    rw [htail]
    rw [ih (acc * 256 + v / 256 ^ n) (v % 256 ^ n) (Nat.mod_lt _ (pow_pos (by norm_num) n))]
    have hdm := Nat.div_add_mod v (256 ^ n)
    calc (acc * 256 + v / 256 ^ n) * 256 ^ n + v % 256 ^ n
        = acc * (256 ^ n * 256) + (256 ^ n * (v / 256 ^ n) + v % 256 ^ n) := by ring
      _ = acc * 256 ^ (n + 1) + v := by rw [hdm, ← pow_succ]

/-- Running the trim loop from i with enough fuel stops exactly at the first
index t where the loop condition fails. -/
theorem leLoop_run (v : Nat) :
    ∀ (fuel i t : Nat), i ≤ t → t ≤ i + fuel →
      (∀ j, i ≤ j → j < t → j < 8 ∧ leByte v j = 0) →
      ¬(t < 8 ∧ leByte v t = 0) →
      leLoop v i fuel = t := by
  intro fuel
  induction fuel with
  | zero =>
    intro i t h1 h2 _ _
    have hit : i = t := by omega
    simp [leLoop, hit]
  | succ n ih =>
    intro i t h1 h2 hc hs
    by_cases hit : i = t
    · subst hit
      simp only [leLoop]
      rw [if_neg hs]
    · have hlt : i < t := by omega
      have hci := hc i le_rfl hlt
      simp only [leLoop]
      rw [if_pos hci]
      exact ih (i + 1) t (by omega) (by omega) (fun j hj1 hj2 => hc j (by omega) hj2) hs

/-- The trim loop of leftEncode stops at index 8 - log256(v) for every 64-bit
value v. -/
theorem leLoop_eval (v : Nat) (hv : v < 2 ^ 64) :
    leLoop v 1 8 = 8 - Nat.log 256 v := by
  have h256 : (2 : Nat) ^ 64 = 256 ^ 8 := by norm_num
  have hL7 : Nat.log 256 v ≤ 7 := by
    by_cases hv0 : v = 0
    · simp [hv0]
    · have := Nat.log_lt_of_lt_pow hv0 (h256 ▸ hv)
      omega
  have hplt : v < 256 ^ (Nat.log 256 v + 1) := Nat.lt_pow_succ_log_self (by norm_num) v
  apply leLoop_run
  · omega
  · omega
  · intro j hj1 hj2
    refine ⟨by omega, ?_⟩
    have hvlt : v < 256 ^ (8 - j) := by
      have hle2 : 256 ^ (Nat.log 256 v + 1) ≤ 256 ^ (8 - j) :=
        Nat.pow_le_pow_right (by norm_num) (by omega)
      omega
    simp [leByte, Nat.div_eq_of_lt hvlt]
  · intro hcon
    obtain ⟨ht8, hbz⟩ := hcon
    have hL1 : 1 ≤ Nat.log 256 v := by omega
    have hv0 : v ≠ 0 := by
      intro h0
      rw [h0, Nat.log_zero_right] at hL1
      omega
    have hple : 256 ^ Nat.log 256 v ≤ v := Nat.pow_log_le_self 256 hv0
    have he : 8 - (8 - Nat.log 256 v) = Nat.log 256 v := by omega
    rw [leByte, he] at hbz
    have hq1 : 1 ≤ v / 256 ^ Nat.log 256 v :=
      (Nat.one_le_div_iff (pow_pos (by norm_num) _)).mpr hple
    have hq2 : v / 256 ^ Nat.log 256 v < 256 := by
      apply Nat.div_lt_of_lt_mul
      rw [← pow_succ]
      exact hplt
    rw [Nat.mod_eq_of_lt hq2] at hbz
    omega

/-- C9: leftEncode 0 is [0x01, 0x00]; for every v below 2^64 the encoding is
at most 9 bytes, its head byte counts the value bytes that follow, decoding
(length byte, then big-endian value bytes) round-trips to v, and the value
byte count is minimal: v fits in that many bytes and (unless the count is the
minimum 1) does not fit in one byte fewer. -/
theorem c9_leftEncode (v : Nat) (hv : v < 2 ^ 64) :
    leftEncode 0 = [1, 0] ∧
    (leftEncode v).length ≤ 9 ∧
    (leftEncode v).headD 0 = (leftEncode v).tail.length ∧
    leDecode (leftEncode v) = some v ∧
    v < 256 ^ (leftEncode v).tail.length ∧
    ((leftEncode v).tail.length = 1 ∨ 256 ^ ((leftEncode v).tail.length - 1) ≤ v) := by
  have h256 : (2 : Nat) ^ 64 = 256 ^ 8 := by norm_num
  have hL7 : Nat.log 256 v ≤ 7 := by
    by_cases hv0 : v = 0
    · simp [hv0]
    · have := Nat.log_lt_of_lt_pow hv0 (h256 ▸ hv)
      omega
  have hplt : v < 256 ^ (Nat.log 256 v + 1) := Nat.lt_pow_succ_log_self (by norm_num) v
  have hle : leftEncode v = (Nat.log 256 v + 1) ::
      (List.range (Nat.log 256 v + 1)).map (fun k => leByte v (8 - Nat.log 256 v + k)) := by
    unfold leftEncode
    dsimp only
    rw [leLoop_eval v hv]
    have h9 : 9 - (8 - Nat.log 256 v) = Nat.log 256 v + 1 := by omega
    rw [h9]
  have htl : (leftEncode v).tail.length = Nat.log 256 v + 1 := by
    rw [hle]
    simp
  refine ⟨by decide, ?_, ?_, ?_, ?_, ?_⟩
  · rw [hle]
    simp
    omega
  · rw [hle]
    simp
  · have hmap : (List.range (Nat.log 256 v + 1)).map
        (fun k => leByte v (8 - Nat.log 256 v + k)) =
        (List.range (Nat.log 256 v + 1)).map
          (fun k => v / 256 ^ (Nat.log 256 v + 1 - 1 - k) % 256) := by
      apply List.map_congr_left
      intro k hk
      have hk2 : k < Nat.log 256 v + 1 := List.mem_range.mp hk
      unfold leByte
      have he : 8 - (8 - Nat.log 256 v + k) = Nat.log 256 v + 1 - 1 - k := by omega
      rw [he]
    rw [hle, hmap]
    simp only [leDecode, List.length_map, List.length_range, if_pos rfl]
    have := beVal_fold (Nat.log 256 v + 1) 0 v hplt
    unfold beVal
    rw [this]
    simp
  · rw [htl]
    exact hplt
  · rw [htl]
    by_cases hv0 : v = 0
    · left
      simp [hv0]
    · right
      simp only [Nat.add_sub_cancel]
      exact Nat.pow_log_le_self 256 hv0

/-- Witness for c9_leftEncode at the concrete value 300. -/
theorem c9_leftEncode_witness :
    leDecode (leftEncode 300) = some 300 ∧ leftEncode 0 = [1, 0] :=
  ⟨(c9_leftEncode 300 (by decide)).2.2.2.1, (c9_leftEncode 300 (by decide)).1⟩
